import Mathlib

/-!
# Verification of the appwrite-ctl migration runner

A shallow embedding of the migration runner (`src/lib/runner.ts`:
`runMigrations`, `waitForAttributes`) and of the `migrations status`
command (`src/bin/index.ts`), together with proofs of the specified
properties.

Modelling conventions:
* Filesystem and remote effects become explicit data in `Version`,
  `World` and the polling query function; console output and control
  decisions are recorded as a trace of `Event`s.
* `process.exit(1)` is modelled by the run returning `false` as its
  continue/success flag and not touching the remaining versions.
* The remote Applied-Set collection and the schema state live in
  `World`.  The helpers `getAppliedMigrations`, `recordMigration` and
  the schema push live in `src/lib/appwrite.ts` / `src/lib/cli.ts`,
  which are not part of the sources at hand; they are modelled from the
  spec's interface contracts (see their doc comments).
-/

namespace AppwriteCtl

/-- The imperative unit loaded from a version's script
(`types/index.ts`: interface `Migration`).  The runner only inspects
`id`, the presence of `up` (`if (migration.up)`), and whether `up`
throws when invoked, so `up` is modelled by the two booleans. -/
structure Migration where
  id : String
  hasUp : Bool
  upFails : Bool
deriving DecidableEq

/-- Outcome of `jiti.import(validIndexFile)` followed by taking
`.default`: the import can throw, or yield a module with no default
export, or yield a `Migration` value. -/
inductive LoadResult where
  | loadThrows : LoadResult
  | loaded : Option Migration → LoadResult
deriving DecidableEq

/-- One entry of `schema.tables` in an `appwrite.config.json` snapshot:
the runner consumes `$id` (here `tid`), `name` and `databaseId`. -/
structure Table where
  name : String
  tid : String
  databaseId : Option String
deriving DecidableEq

/-- The part of a parsed snapshot consumed by `waitForAttributes`:
`schema.tables || []`.  (`schema.tablesDB` is read into `dbMap` in the
source but `dbMap` is never used afterwards, so it is omitted.) -/
structure Snapshot where
  tables : List Table
deriving DecidableEq

/-- A discovered version directory (one entry of `versionDirs`).
`hasIndex` models `fs.existsSync(index.ts) || fs.existsSync(index.js)`;
`load` the dynamic import of that file; `snapshot` the snapshot file:
`none` = no `appwrite.config.json` present, `some none` = present but
`JSON.parse` throws, `some (some s)` = present and parses to `s`;
`pushFails` models `pushSnapshot` throwing. -/
structure Version where
  name : String
  hasIndex : Bool
  load : LoadResult
  snapshot : Option (Option Snapshot)
  pushFails : Bool
deriving DecidableEq

/-- Outcome of one `databases.listAttributes(databaseId, collectionId)`
call: either the list of the attributes' `status` strings, or a thrown
error carrying `e.code`. -/
inductive QueryOutcome where
  | ok : List String → QueryOutcome
  | err : Nat → QueryOutcome
deriving DecidableEq

/-- The attribute-status query: for a (databaseId, collectionId) pair
and a 0-based attempt number, the outcome of that attempt. -/
abbrev Query := String → String → Nat → QueryOutcome

/-- Terminal state of the polling loop for one (database, table) pair:
all attributes available, loop abandoned on a code-500 error, or the
60-attempt bound exhausted. -/
inductive PairResult where
  | converged : PairResult
  | abandoned : PairResult
  | timedOut : PairResult
deriving DecidableEq

/-- Observable actions of a run, in order: warnings, schema pushes,
polling outcomes, script executions, Applied-Set writes, and the
fatal branches that end in `process.exit(1)`. -/
inductive Event where
  | warnNoIndex : String → Event
  | skipApplied : String → String → Event
  | pushed : String → Event
  | warnNoSnapshot : String → Event
  | warnParseFailed : Event
  | warnNoDatabaseId : String → Event
  | polledPair : String → String → PairResult → Nat → Event
  | executedUp : String → Event
  | recorded : String → String → Event
  | abortLoad : String → Event
  | abortInvalid : String → Event
  | abortPush : String → Event
  | abortUp : String → Event
deriving DecidableEq

/-- A durable AppliedRecord: migration `id` plus the version label it
was applied under. -/
structure AppliedRecord where
  id : String
  version : String
deriving DecidableEq

/-- The remote state touched by the runner: the Applied-Set collection
(list of AppliedRecords, in creation order) and the schema state,
abstracted as the list of snapshot pushes accepted so far. -/
structure World where
  applied : List AppliedRecord
  pushedSnapshots : List String
deriving DecidableEq

/-- Modelled from the spec: `getAppliedMigrations` (in
`src/lib/appwrite.ts`, not among the sources) implements §4.2
`loadAppliedIds() -> set of id`: it reads every previously recorded
migration id and mutates nothing. -/
def getAppliedMigrations (w : World) : World × List String :=
  (w, w.applied.map (fun r => r.id))

/-- Modelled from the spec: `recordMigration` (in
`src/lib/appwrite.ts`, not among the sources) implements §4.2
`recordApplied(id, versionLabel)`: it creates exactly one
AppliedRecord. -/
def recordMigration (w : World) (id version : String) : World :=
  { w with applied := w.applied ++ [⟨id, version⟩] }

/-- Modelled from the spec: `pushSnapshot` (in `src/lib/cli.ts`, not
among the sources) implements §4.3 `push(snapshotRef)`: an opaque
schema mutation, recorded here as appending the pushed version's label
to the schema state. -/
def pushSnapshotW (w : World) (label : String) : World :=
  { w with pushedSnapshots := w.pushedSnapshots ++ [label] }

/-- Value of the digit prefix of a character list (the digits consumed
by `parseInt`), accumulator style. -/
def parseDigitsAux : List Char → Nat → Nat
  | [], acc => acc
  | c :: cs, acc =>
    if c.isDigit then parseDigitsAux cs (acc * 10 + (c.toNat - 48)) else acc

/-- `parseInt(name.substring(1))` for a version directory name: the
numeric value of the digit prefix after the leading character, `none`
when there is no leading digit (`parseInt` yields `NaN` there; the
source's sort comparator is then `NaN`, whose order is unspecified, so
the theorems assume parseable names). -/
def parseOrdinal (name : String) : Option Nat :=
  match name.data.drop 1 with
  | [] => none
  | c :: cs => if c.isDigit then some (parseDigitsAux (c :: cs) 0) else none

/-- Sort key used by the discovery sort; defaults to 0 on unparseable
names (see `parseOrdinal`). -/
def ordKey (name : String) : Nat :=
  (parseOrdinal name).getD 0

/-- Insert `x` into a list sorted by `key`, before the first strictly
greater element (ties keep the earlier-inserted element later, giving a
stable sort overall, as `Array.prototype.sort` is stable). -/
def insertByKey {α : Type} (key : α → Nat) (x : α) : List α → List α
  | [] => [x]
  | y :: ys => if key x ≤ key y then x :: y :: ys else y :: insertByKey key x ys

/-- Stable insertion sort by a numeric key: the model of
`versionDirs.sort((a, b) => parseInt(a.substring(1)) - parseInt(b.substring(1)))`. -/
def sortByKey {α : Type} (key : α → Nat) : List α → List α
  | [] => []
  | x :: xs => insertByKey key x (sortByKey key xs)

/-- The discovered versions in processing order. -/
def sortVersions (vs : List Version) : List Version :=
  sortByKey (fun v => ordKey v.name) vs

/-- One iteration step of `waitForAttributes`' inner `while` loop, as a
classifier of the query outcome: `true` when the loop sleeps and
retries (some attribute not `available`, or a non-500 error). -/
def pollStepContinues : QueryOutcome → Bool
  | .ok statuses => decide (statuses.filter (fun s => s ≠ "available") ≠ [])
  | .err code => decide (code ≠ 500)

/-- The polling loop body for one pair, from attempt counter `attempts`
with `remaining` = `MAX_ATTEMPTS - attempts` iterations left.  Returns
the terminal `PairResult` and the final value of the attempt counter.
Mirrors the source loop: the bound is checked first, then the counter
is incremented, then the query runs; an empty pending filter converges,
a code-500 error abandons, anything else sleeps and retries. -/
def pollFrom (q : Nat → QueryOutcome) (attempts : Nat) : Nat → PairResult × Nat
  | 0 => (.timedOut, attempts)
  | r + 1 =>
    match q attempts with
    | .ok statuses =>
      if statuses.filter (fun s => s ≠ "available") = [] then (.converged, attempts + 1)
      else pollFrom q (attempts + 1) r
    | .err code =>
      if code = 500 then (.abandoned, attempts + 1)
      else pollFrom q (attempts + 1) r

/-- `MAX_ATTEMPTS` in `waitForAttributes`. -/
def MAX_ATTEMPTS : Nat := 60

/-- The whole polling loop for one (database, collection) pair. -/
def pollPair (q : Nat → QueryOutcome) : PairResult × Nat :=
  pollFrom q 0 MAX_ATTEMPTS

/-- Processing of one `schema.tables` entry by `waitForAttributes`:
tables without a `databaseId` are skipped with a warning, others are
polled to a terminal `PairResult`. -/
def tableEvents (q : Query) (t : Table) : Event :=
  match t.databaseId with
  | none => .warnNoDatabaseId t.name
  | some db =>
    let pr := pollPair (q db t.tid)
    .polledPair db t.tid pr.1 pr.2

/-- `waitForAttributes(databases, snapshotPath)` for a snapshot file
that exists: a `JSON.parse` failure logs and returns; otherwise each
table is handled strictly sequentially, in snapshot order. -/
def waitForAttributes (q : Query) (sf : Option Snapshot) : List Event :=
  match sf with
  | none => [.warnParseFailed]
  | some snap => snap.tables.map (tableEvents q)

/-- Steps 6–7 of the per-version loop: `if (migration.up)` guards the
execution (and its try/catch ending in `process.exit(1)`), then
`recordMigration` runs unconditionally. -/
def execAndRecord (w : World) (evs : List Event) (m : Migration) (label : String) :
    World × List Event × Bool :=
  if m.hasUp then
    if m.upFails then (w, evs ++ [.abortUp label], false)
    else (recordMigration w m.id label,
          evs ++ [.executedUp m.id, .recorded m.id label], true)
  else (recordMigration w m.id label, evs ++ [.recorded m.id label], true)

/-- The body of `runMigrations`' `for (const version of versionDirs)`
loop for one version: the missing-index skip, the load and
well-formedness checks, the Applied-Set skip, the snapshot push, the
attribute polling, the script execution and the finalization.  Returns
the new world, the events of this iteration, and whether the loop
continues (`false` = `process.exit(1)`). -/
def processVersion (q : Query) (appliedSet : List String) (w : World) (v : Version) :
    World × List Event × Bool :=
  if v.hasIndex = true then
    match v.load with
    | .loadThrows => (w, [.abortLoad v.name], false)
    | .loaded none => (w, [.abortInvalid v.name], false)
    | .loaded (some m) =>
      if m.id = "" then (w, [.abortInvalid v.name], false)
      else if m.id ∈ appliedSet then (w, [.skipApplied v.name m.id], true)
      else
        match v.snapshot with
        | some sf =>
          if v.pushFails then (w, [.abortPush v.name], false)
          else
            execAndRecord (pushSnapshotW w v.name)
              (.pushed v.name :: waitForAttributes q sf) m v.name
        | none => execAndRecord w [.warnNoSnapshot v.name] m v.name
  else (w, [.warnNoIndex v.name], true)

/-- The per-version loop over the sorted versions: each iteration
either continues with the updated world or ends the whole run
(`process.exit(1)`), leaving the remaining versions untouched. -/
def runVersions (q : Query) (appliedSet : List String) :
    World → List Version → World × List Event × Bool
  | w, [] => (w, [], true)
  | w, v :: rest =>
    let step := processVersion q appliedSet w v
    if step.2.2 then
      let next := runVersions q appliedSet step.1 rest
      (next.1, step.2.1 ++ next.2.1, next.2.2)
    else (step.1, step.2.1, false)

/-- The static inputs of a run: the discovered version directories (the
entries of `versionDirs` before sorting) and the attribute-status
query. -/
structure Env where
  versions : List Version
  query : Query

/-- `runMigrations`: load the Applied-Set, sort the discovered
versions by ordinal, and run the per-version loop.  Returns the final
world, the event trace, and `true` iff the run completed without
`process.exit(1)`. -/
def runMigrations (env : Env) (w : World) : World × List Event × Bool :=
  let loaded := getAppliedMigrations w
  runVersions env.query loaded.2 loaded.1 (sortVersions env.versions)

/-- `c` is one of the two quote characters of the id regex
`/id:\s*["']([^"']+)["']/`. -/
def isQuote (c : Char) : Bool :=
  c = '"' ∨ c = '\''

/-- Greedy `\s*`. -/
def skipSpaces : List Char → List Char
  | [] => []
  | c :: cs => if c.isWhitespace then skipSpaces cs else c :: cs

/-- The part of the id regex after the literal `id:`: `\s*` then a
quote, then the capture `[^"']+`, then a quote.  Greedy matching here
agrees with the regex engine: `\s*` cannot backtrack into a quote, and
every shortening of the maximal `[^"']+` run puts a non-quote where
`["']` must match. -/
def matchAfterColon (cs : List Char) : Option String :=
  match skipSpaces cs with
  | [] => none
  | q :: rest =>
    if isQuote q then
      let body := rest.takeWhile (fun c => ¬ isQuote c)
      match rest.drop body.length with
      | q2 :: _ => if isQuote q2 ∧ body ≠ [] then some (String.mk body) else none
      | [] => none
    else none

/-- Try the id regex anchored at the start of `cs`. -/
def matchIdAt : List Char → Option String
  | 'i' :: 'd' :: ':' :: rest => matchAfterColon rest
  | _ => none

/-- `content.match(/id:\s*["']([^"']+)["']/)`: the capture of the
leftmost match, scanning positions left to right. -/
def extractId : List Char → Option String
  | [] => none
  | c :: cs =>
    match matchIdAt (c :: cs) with
    | some s => some s
    | none => extractId cs

/-- A version directory as seen by `migrations status`: its name and
the text of its `index.ts`, when that file exists (`status` never looks
at `index.js`). -/
structure StatusVersion where
  name : String
  indexTs : Option String
deriving DecidableEq

/-- The id `status` extracts for a version: the regex capture from the
`index.ts` text, if any. -/
def extractedId (v : StatusVersion) : Option String :=
  v.indexTs.bind (fun content => extractId content.data)

/-- `let id = 'unknown'; ... if (match) id = match[1]`. -/
def deriveId (v : StatusVersion) : String :=
  (extractedId v).getD "unknown"

/-- One output line of `migrations status`: version name, derived id,
and whether the derived id is in the Applied-Set (`true` = APPLIED,
`false` = PENDING). -/
def statusOf (appliedSet : List String) (v : StatusVersion) : String × String × Bool :=
  (v.name, deriveId v, decide (deriveId v ∈ appliedSet))

/-- The `migrations status` action: read the applied ids, read and sort
the version directories, and derive one line per version.  All steps
are reads; the world is returned unchanged. -/
def statusRun (w : World) (dirs : List StatusVersion) :
    World × List (String × String × Bool) :=
  let loaded := getAppliedMigrations w
  (loaded.1,
   (sortByKey (fun v => ordKey v.name) dirs).map (statusOf loaded.2))

/-- The query outcome reports at least one non-`available` attribute. -/
def reportsPending : QueryOutcome → Bool
  | .ok statuses => decide (statuses.filter (fun s => s ≠ "available") ≠ [])
  | .err _ => false

/-! ### Concrete sample data, used to evaluate the theorems on closed
inputs -/

/-- A query under which every attribute is immediately available. -/
def sampleQuery : Query := fun _ _ _ => .ok []

/-- A per-pair query that reports a pending attribute on every
attempt. -/
def samplePendingQuery : Nat → QueryOutcome := fun _ => .ok ["pending"]

/-- A per-pair query whose first attempt fails with a 500 error. -/
def sample500Query : Nat → QueryOutcome := fun _ => .err 500

/-- A full query under which every pair reports a pending attribute
forever. -/
def samplePendingQ : Query := fun _ _ => samplePendingQuery

def sampleMigA : Migration := ⟨"A", true, false⟩

def sampleMigB : Migration := ⟨"B", true, false⟩

def sampleMigFail : Migration := ⟨"F", true, true⟩

def sampleMigNoUp : Migration := ⟨"N", false, false⟩

def sampleV1 : Version := ⟨"v1", true, .loaded (some sampleMigA), none, false⟩

def sampleV2 : Version := ⟨"v2", true, .loaded (some sampleMigB), none, false⟩

def sampleVNoIndex : Version := ⟨"v1", false, .loadThrows, none, false⟩

def sampleVFail : Version := ⟨"v1", true, .loaded (some sampleMigFail), none, false⟩

def sampleVNoUp : Version := ⟨"v1", true, .loaded (some sampleMigNoUp), none, false⟩

def sampleSnapshot : Snapshot := ⟨[⟨"users", "T", some "db"⟩]⟩

def sampleVWithSnap : Version :=
  ⟨"v1", true, .loaded (some sampleMigA), some (some sampleSnapshot), false⟩

def sampleEnv1 : Env := ⟨[sampleV2, sampleV1], sampleQuery⟩

def sampleEnvNoIndex : Env := ⟨[sampleVNoIndex, sampleV2], sampleQuery⟩

def emptyWorld : World := ⟨[], []⟩

def sampleStatusNoTs : StatusVersion := ⟨"v1", none⟩

/-- Events that `waitForAttributes` can emit. -/
def isPollEvent : Event → Bool
  | .polledPair _ _ _ _ => true
  | .warnNoDatabaseId _ => true
  | .warnParseFailed => true
  | _ => false

/-- Events of an iteration that touches nothing: the missing-index
warning and the already-applied skip. -/
def isSkipEvent : Event → Bool
  | .warnNoIndex _ => true
  | .skipApplied _ _ => true
  | _ => false

/-! ## Sorting lemmas -/

theorem mem_insertByKey {α : Type} (key : α → Nat) (x : α) :
    ∀ (l : List α) (y : α), y ∈ insertByKey key x l ↔ y = x ∨ y ∈ l
  | [], y => by simp [insertByKey]
  | z :: zs, y => by
    by_cases h : key x ≤ key z
    · simp [insertByKey, h]
    · simp only [insertByKey, if_neg h, List.mem_cons, mem_insertByKey key x zs y]
      tauto

theorem perm_insertByKey {α : Type} (key : α → Nat) (x : α) :
    ∀ l : List α, (insertByKey key x l).Perm (x :: l)
  | [] => List.Perm.refl _
  | z :: zs => by
    by_cases h : key x ≤ key z
    · simp [insertByKey, h]
    · simp only [insertByKey, if_neg h]
      exact ((perm_insertByKey key x zs).cons z).trans (List.Perm.swap x z zs)

theorem perm_sortByKey {α : Type} (key : α → Nat) :
    ∀ l : List α, (sortByKey key l).Perm l
  | [] => List.Perm.refl _
  | x :: xs =>
    (perm_insertByKey key x (sortByKey key xs)).trans ((perm_sortByKey key xs).cons x)

theorem pairwise_le_insertByKey {α : Type} (key : α → Nat) (x : α) :
    ∀ l : List α, l.Pairwise (fun a b => key a ≤ key b) →
      (insertByKey key x l).Pairwise (fun a b => key a ≤ key b)
  | [], _ => by simp [insertByKey]
  | z :: zs, h => by
    rcases h with _ | ⟨hz, hzs⟩
    by_cases hle : key x ≤ key z
    · simp only [insertByKey, if_pos hle]
      refine List.Pairwise.cons ?_ (List.Pairwise.cons hz hzs)
      intro b hb
      rcases List.mem_cons.mp hb with rfl | hb
      · exact hle
      · exact le_trans hle (hz b hb)
    · simp only [insertByKey, if_neg hle]
      refine List.Pairwise.cons ?_ (pairwise_le_insertByKey key x zs hzs)
      intro b hb
      rcases (mem_insertByKey key x zs b).mp hb with rfl | hb
      · exact le_of_lt (lt_of_not_le hle)
      · exact hz b hb

theorem pairwise_le_sortByKey {α : Type} (key : α → Nat) :
    ∀ l : List α, (sortByKey key l).Pairwise (fun a b => key a ≤ key b)
  | [] => List.Pairwise.nil
  | x :: xs => pairwise_le_insertByKey key x _ (pairwise_le_sortByKey key xs)

theorem pairwise_lt_of_le_ne {α : Type} (key : α → Nat) :
    ∀ l : List α, l.Pairwise (fun a b => key a ≤ key b) →
      l.Pairwise (fun a b => key a ≠ key b) →
      l.Pairwise (fun a b => key a < key b)
  | [], _, _ => List.Pairwise.nil
  | _ :: _, List.Pairwise.cons h1 t1, List.Pairwise.cons h2 t2 =>
    List.Pairwise.cons (fun b hb => lt_of_le_of_ne (h1 b hb) (h2 b hb))
      (pairwise_lt_of_le_ne key _ t1 t2)

theorem pairwise_ne_sortByKey {α : Type} (key : α → Nat) (l : List α)
    (h : l.Pairwise (fun a b => key a ≠ key b)) :
    (sortByKey key l).Pairwise (fun a b => key a ≠ key b) :=
  (List.Perm.pairwise_iff (fun hab => (hab ∘ Eq.symm)) (perm_sortByKey key l)).mpr h

theorem pairwise_lt_sortByKey {α : Type} (key : α → Nat) (l : List α)
    (h : l.Pairwise (fun a b => key a ≠ key b)) :
    (sortByKey key l).Pairwise (fun a b => key a < key b) :=
  pairwise_lt_of_le_ne key _ (pairwise_le_sortByKey key l) (pairwise_ne_sortByKey key l h)

/-! ## Trace and world lemmas -/

theorem waitForAttributes_pollish (q : Query) (sf : Option Snapshot) :
    ∀ e ∈ waitForAttributes q sf, isPollEvent e = true := by
  cases sf with
  | none => intro e he; simp [waitForAttributes] at he; simp [he, isPollEvent]
  | some snap =>
    intro e he
    simp only [waitForAttributes, List.mem_map] at he
    obtain ⟨t, _, rfl⟩ := he
    cases h : t.databaseId <;> simp [tableEvents, h, isPollEvent]

theorem execAndRecord_applied (w : World) (evs : List Event) (m : Migration)
    (label : String) :
    ∃ t, (execAndRecord w evs m label).1.applied = w.applied ++ t := by
  unfold execAndRecord recordMigration
  split_ifs
  · exact ⟨[], by simp⟩
  · exact ⟨[⟨m.id, label⟩], rfl⟩
  · exact ⟨[⟨m.id, label⟩], rfl⟩

theorem processVersion_applied (q : Query) (a : List String) (w : World) (v : Version) :
    ∃ t, (processVersion q a w v).1.applied = w.applied ++ t := by
  unfold processVersion
  by_cases hidx : v.hasIndex = true
  case neg => exact ⟨[], by simp [hidx]⟩
  simp only [if_pos hidx]
  cases hv : v.load with
  | loadThrows => exact ⟨[], by simp⟩
  | loaded om =>
    cases om with
    | none => exact ⟨[], by simp⟩
    | some m =>
      by_cases hid : m.id = ""
      · exact ⟨[], by simp [hid]⟩
      simp only [if_neg hid]
      by_cases happ : m.id ∈ a
      · exact ⟨[], by simp [happ]⟩
      simp only [if_neg happ, if_false]
      cases hs : v.snapshot with
      | none => simpa using execAndRecord_applied w _ m v.name
      | some sf =>
        by_cases hp : v.pushFails = true
        · exact ⟨[], by simp [hp]⟩
        · simp only [hp, if_false, Bool.false_eq_true]
          rcases execAndRecord_applied (pushSnapshotW w v.name) _ m v.name with ⟨t, ht⟩
          exact ⟨t, by simpa [pushSnapshotW] using ht⟩

theorem runVersions_applied (q : Query) (a : List String) :
    ∀ (vs : List Version) (w : World),
      ∃ t, (runVersions q a w vs).1.applied = w.applied ++ t
  | [], w => ⟨[], by simp [runVersions]⟩
  | v :: rest, w => by
    simp only [runVersions]
    rcases processVersion_applied q a w v with ⟨t1, ht1⟩
    by_cases hc : (processVersion q a w v).2.2 = true
    · simp only [hc, if_true]
      rcases runVersions_applied q a rest (processVersion q a w v).1 with ⟨t2, ht2⟩
      exact ⟨t1 ++ t2, by rw [ht2, ht1, List.append_assoc]⟩
    · simp only [hc, if_false]
      exact ⟨t1, ht1⟩

theorem mem_ids_of_append {w : World} {t : List AppliedRecord} {x : String}
    {w' : World} (h : w'.applied = w.applied ++ t)
    (hx : x ∈ w.applied.map (fun r => r.id)) :
    x ∈ w'.applied.map (fun r => r.id) := by
  rw [h]
  simp only [List.map_append, List.mem_append]
  exact Or.inl hx

/-- Characterization of a loop iteration that continues: either the
version had no index file (and nothing happened), or it loaded a
well-formed migration and was either skipped as already applied or
executed and recorded. -/
theorem processVersion_success_shape (q : Query) (a : List String) (w : World)
    (v : Version) (h : (processVersion q a w v).2.2 = true) :
    (v.hasIndex = false ∧ (processVersion q a w v).1 = w) ∨
    ∃ m, v.load = .loaded (some m) ∧ m.id ≠ "" ∧
      ((m.id ∈ a ∧ (processVersion q a w v).1 = w) ∨
        (processVersion q a w v).1.applied = w.applied ++ [⟨m.id, v.name⟩]) := by
  revert h
  unfold processVersion
  by_cases hidx : v.hasIndex = true
  case neg =>
    intro _
    exact Or.inl ⟨by simpa using hidx, by simp [hidx]⟩
  simp only [if_pos hidx]
  cases hv : v.load with
  | loadThrows => intro h; simp at h
  | loaded om =>
    cases om with
    | none => intro h; simp at h
    | some m =>
      by_cases hid : m.id = ""
      · intro h; simp [hid] at h
      simp only [if_neg hid]
      by_cases happ : m.id ∈ a
      · intro _
        exact Or.inr ⟨m, rfl, hid, Or.inl ⟨happ, by simp [happ]⟩⟩
      simp only [if_neg happ, if_false]
      cases hs : v.snapshot with
      | none =>
        unfold execAndRecord recordMigration
        by_cases hup : m.hasUp = true
        · by_cases hf : m.upFails = true
          · intro h; simp [hup, hf] at h
          · intro _
            refine Or.inr ⟨m, rfl, hid, Or.inr ?_⟩
            simp [hup, hf]
        · intro _
          refine Or.inr ⟨m, rfl, hid, Or.inr ?_⟩
          simp [hup]
      | some sf =>
        by_cases hp : v.pushFails = true
        · intro h; simp [hp] at h
        simp only [hp, if_false, Bool.false_eq_true]
        unfold execAndRecord recordMigration
        by_cases hup : m.hasUp = true
        · by_cases hf : m.upFails = true
          · intro h; simp [hup, hf] at h
          · intro _
            refine Or.inr ⟨m, rfl, hid, Or.inr ?_⟩
            simp [hup, hf, pushSnapshotW]
        · intro _
          refine Or.inr ⟨m, rfl, hid, Or.inr ?_⟩
          simp [hup, pushSnapshotW]

/-- After a successful run, every version that carries a well-formed
migration has its id among the applied records of the final world. -/
theorem runVersions_success_covers (q : Query) (a : List String) :
    ∀ (vs : List Version) (w : World),
      (∀ x ∈ a, x ∈ w.applied.map (fun r => r.id)) →
      (runVersions q a w vs).2.2 = true →
      ∀ v ∈ vs, v.hasIndex = false ∨
        ∃ m, v.load = .loaded (some m) ∧ m.id ≠ "" ∧
          m.id ∈ ((runVersions q a w vs).1.applied.map (fun r => r.id))
  | [], _, _, _ => by simp
  | v :: rest, w, ha, hok => by
    have hstep : (processVersion q a w v).2.2 = true := by
      by_contra hc
      simp only [runVersions, Bool.not_eq_true] at hok hc
      rw [hc] at hok
      simp at hok
    have hrest : (runVersions q a (processVersion q a w v).1 rest).2.2 = true := by
      simp only [runVersions, hstep, if_true] at hok
      exact hok
    have hfin : (runVersions q a w (v :: rest)).1 =
        (runVersions q a (processVersion q a w v).1 rest).1 := by
      simp [runVersions, hstep]
    have hmono1 : ∀ x ∈ w.applied.map (fun r => r.id),
        x ∈ ((processVersion q a w v).1.applied.map (fun r => r.id)) := by
      rcases processVersion_applied q a w v with ⟨t, ht⟩
      exact fun x hx => mem_ids_of_append ht hx
    have hmono2 : ∀ x ∈ ((processVersion q a w v).1.applied.map (fun r => r.id)),
        x ∈ ((runVersions q a (processVersion q a w v).1 rest).1.applied.map
          (fun r => r.id)) := by
      rcases runVersions_applied q a rest (processVersion q a w v).1 with ⟨t, ht⟩
      exact fun x hx => mem_ids_of_append ht hx
    intro u hu
    rcases List.mem_cons.mp hu with rfl | hu
    · rcases processVersion_success_shape q a w u hstep with ⟨hni, _⟩ | ⟨m, hm, hid, hcase⟩
      · exact Or.inl hni
      · refine Or.inr ⟨m, hm, hid, ?_⟩
        rw [hfin]
        rcases hcase with ⟨hmem, hw⟩ | happlied
        · exact hmono2 _ (by rw [hw]; exact ha _ hmem)
        · refine hmono2 _ ?_
          rw [happlied]
          simp
    · have := runVersions_success_covers q a rest (processVersion q a w v).1
        (fun x hx => hmono1 x (ha x hx)) hrest u hu
      rcases this with hni | ⟨m, hm, hid, hmem⟩
      · exact Or.inl hni
      · exact Or.inr ⟨m, hm, hid, by rw [hfin]; exact hmem⟩

/-- A run over versions that are all either index-less or already in
the Applied-Set changes nothing, succeeds, and only emits skip
events. -/
theorem runVersions_all_applied (q : Query) (a : List String) :
    ∀ (vs : List Version) (w : World),
      (∀ v ∈ vs, v.hasIndex = false ∨
        ∃ m, v.load = .loaded (some m) ∧ m.id ≠ "" ∧ m.id ∈ a) →
      (runVersions q a w vs).1 = w ∧ (runVersions q a w vs).2.2 = true ∧
        ∀ e ∈ (runVersions q a w vs).2.1, isSkipEvent e = true
  | [], w, _ => by simp [runVersions]
  | v :: rest, w, hall => by
    have hv := hall v (List.mem_cons_self v rest)
    have hstep : processVersion q a w v = (w, (processVersion q a w v).2.1, true)
        ∧ ∀ e ∈ (processVersion q a w v).2.1, isSkipEvent e = true := by
      rcases hv with hni | ⟨m, hm, hid, hmem⟩
      · have hni' : ¬ v.hasIndex = true := by simp [hni]
        constructor
        · simp [processVersion, hni']
        · simp [processVersion, hni', isSkipEvent]
      · by_cases hix : v.hasIndex = true
        · constructor
          · simp [processVersion, hix, hm, hid, hmem]
          · simp [processVersion, hix, hm, hid, hmem, isSkipEvent]
        · constructor
          · simp [processVersion, hix]
          · simp [processVersion, hix, isSkipEvent]
    have hrest := runVersions_all_applied q a rest w
      (fun u hu => hall u (List.mem_cons_of_mem v hu))
    have hcont : (processVersion q a w v).2.2 = true := by
      rw [hstep.1]
    have hworld : (processVersion q a w v).1 = w := by
      rw [hstep.1]
    refine ⟨?_, ?_, ?_⟩
    · simp only [runVersions, hcont, if_true, hworld]
      exact hrest.1
    · simp only [runVersions, hcont, if_true, hworld]
      exact hrest.2.1
    · simp only [runVersions, hcont, if_true, hworld]
      intro e he
      rcases List.mem_append.mp he with he | he
      · exact hstep.2 e he
      · exact hrest.2.2 e he

/-! ## Polling lemmas -/

theorem pollFrom_attempts_le (q : Nat → QueryOutcome) :
    ∀ (r a : Nat), (pollFrom q a r).2 ≤ a + r
  | 0, a => by simp [pollFrom]
  | r + 1, a => by
    unfold pollFrom
    cases hqa : q a with
    | ok statuses =>
      by_cases he : statuses.filter (fun s => s ≠ "available") = []
      · simp only [if_pos he]
        omega
      · simp only [if_neg he]
        have h := pollFrom_attempts_le q r (a + 1)
        omega
    | err code =>
      by_cases hc : code = 500
      · simp only [if_pos hc]
        omega
      · simp only [if_neg hc]
        have h := pollFrom_attempts_le q r (a + 1)
        omega

theorem pollFrom_pending (q : Nat → QueryOutcome)
    (hq : ∀ n, reportsPending (q n) = true) :
    ∀ (r a : Nat), pollFrom q a r = (.timedOut, a + r)
  | 0, a => by simp [pollFrom]
  | r + 1, a => by
    have h := hq a
    unfold pollFrom
    cases hqa : q a with
    | ok statuses =>
      rw [hqa] at h
      simp only [reportsPending, decide_eq_true_eq] at h
      simp only [if_neg h]
      rw [pollFrom_pending q hq r (a + 1)]
      have : a + 1 + r = a + (r + 1) := by omega
      rw [this]
    | err code =>
      rw [hqa] at h
      simp [reportsPending] at h

theorem pollFrom_abandons (q : Nat → QueryOutcome) :
    ∀ (k r a : Nat), k < r →
      (∀ j, j < k → pollStepContinues (q (a + j)) = true) →
      q (a + k) = .err 500 → pollFrom q a r = (.abandoned, a + k + 1)
  | 0, r, a, hk, _, h500 => by
    obtain ⟨r', rfl⟩ : ∃ r', r = r' + 1 := ⟨r - 1, by omega⟩
    unfold pollFrom
    rw [show a + 0 = a from rfl] at h500
    rw [h500]
    simp
  | k + 1, r, a, hk, hbefore, h500 => by
    obtain ⟨r', rfl⟩ : ∃ r', r = r' + 1 := ⟨r - 1, by omega⟩
    have hcont := hbefore 0 (Nat.succ_pos k)
    rw [show a + 0 = a from rfl] at hcont
    unfold pollFrom
    cases hqa : q a with
    | ok statuses =>
      rw [hqa] at hcont
      simp only [pollStepContinues, decide_eq_true_eq] at hcont
      simp only [if_neg hcont]
      have ih := pollFrom_abandons q k r' (a + 1) (by omega)
        (fun j hj => by
          have := hbefore (j + 1) (by omega)
          rwa [show a + (j + 1) = a + 1 + j from by omega] at this)
        (by rwa [show a + 1 + k = a + (k + 1) from by omega])
      rw [ih]
      have : a + 1 + k + 1 = a + (k + 1) + 1 := by omega
      rw [this]
    | err code =>
      rw [hqa] at hcont
      simp only [pollStepContinues, decide_eq_true_eq] at hcont
      simp only [if_neg hcont]
      have ih := pollFrom_abandons q k r' (a + 1) (by omega)
        (fun j hj => by
          have := hbefore (j + 1) (by omega)
          rwa [show a + (j + 1) = a + 1 + j from by omega] at this)
        (by rwa [show a + 1 + k = a + (k + 1) from by omega])
      rw [ih]
      have : a + 1 + k + 1 = a + (k + 1) + 1 := by omega
      rw [this]

theorem execAndRecord_events_irrelevant (w : World) (evs evs' : List Event)
    (m : Migration) (label : String) :
    (execAndRecord w evs m label).1 = (execAndRecord w evs' m label).1
    ∧ (execAndRecord w evs m label).2.2 = (execAndRecord w evs' m label).2.2 := by
  unfold execAndRecord
  split_ifs <;> exact ⟨rfl, rfl⟩

/-- The polling outcomes never influence the world or the run's
continuation: `processVersion` under two different queries differs at
most in the trace.  This is the "the readiness loop never raises past
the Orchestrator" invariant. -/
theorem processVersion_query_irrelevant (q q' : Query) (a : List String)
    (w : World) (v : Version) :
    (processVersion q a w v).1 = (processVersion q' a w v).1
    ∧ (processVersion q a w v).2.2 = (processVersion q' a w v).2.2 := by
  unfold processVersion
  by_cases hidx : v.hasIndex = true
  case neg => simp [hidx]
  simp only [if_pos hidx]
  cases hv : v.load with
  | loadThrows => exact ⟨rfl, rfl⟩
  | loaded om =>
    cases om with
    | none => exact ⟨rfl, rfl⟩
    | some m =>
      by_cases hid : m.id = ""
      · simp [hid]
      simp only [if_neg hid]
      by_cases happ : m.id ∈ a
      · simp [happ]
      simp only [if_neg happ, if_false]
      cases hs : v.snapshot with
      | none => exact ⟨rfl, rfl⟩
      | some sf =>
        by_cases hp : v.pushFails = true
        · simp [hp]
        simp only [hp, if_false, Bool.false_eq_true]
        exact execAndRecord_events_irrelevant (pushSnapshotW w v.name) _ _ m v.name

/-! ## Claim theorems -/

/-- C1: `runMigrations` processes the discovered versions in strictly
ascending order of the integer ordinal parsed from their directory
names (given parseable, pairwise-distinct ordinals), and a version
whose migration id is already in the loaded Applied-Set produces only a
skip message — no schema push, no polling, no execution of `up` — and
the loop moves on to the next version. -/
theorem runMigrations_orders_and_skips_applied (env : Env) (q : Query)
    (appliedSet : List String) (w : World) (v : Version) (m : Migration)
    (hparse : ∀ u ∈ env.versions, (parseOrdinal u.name).isSome = true)
    (hdistinct : env.versions.Pairwise (fun a b => ordKey a.name ≠ ordKey b.name))
    (hidx : v.hasIndex = true) (hload : v.load = .loaded (some m))
    (hid : m.id ≠ "") (happ : m.id ∈ appliedSet) :
    (sortVersions env.versions).Pairwise (fun a b => ordKey a.name < ordKey b.name)
    ∧ runMigrations env w =
        runVersions env.query (getAppliedMigrations w).2 w (sortVersions env.versions)
    ∧ processVersion q appliedSet w v = (w, [Event.skipApplied v.name m.id], true) := by
  refine ⟨?_, rfl, ?_⟩
  · exact pairwise_lt_sortByKey _ env.versions hdistinct
  · simp [processVersion, hidx, hload, hid, happ]

/-- Closed-input evaluation of `runMigrations_orders_and_skips_applied`:
two versions v2, v1 with distinct ordinals, and v1's migration id "A"
already applied. -/
theorem runMigrations_orders_and_skips_applied_witness :
    ((∀ u ∈ sampleEnv1.versions, (parseOrdinal u.name).isSome = true)
      ∧ sampleEnv1.versions.Pairwise (fun a b => ordKey a.name ≠ ordKey b.name)
      ∧ sampleV1.hasIndex = true
      ∧ sampleV1.load = .loaded (some sampleMigA)
      ∧ sampleMigA.id ≠ "" ∧ sampleMigA.id ∈ ["A"])
    ∧ (sortVersions sampleEnv1.versions).Pairwise
        (fun a b => ordKey a.name < ordKey b.name)
    ∧ processVersion sampleQuery ["A"] emptyWorld sampleV1 =
        (emptyWorld, [Event.skipApplied "v1" "A"], true) := by
  have h := runMigrations_orders_and_skips_applied sampleEnv1 sampleQuery ["A"]
    emptyWorld sampleV1 sampleMigA (by decide) (by decide) (by decide) (by decide)
    (by decide) (by decide)
  exact ⟨⟨by decide, by decide, by decide, by decide, by decide, by decide⟩, h.1, h.2.2⟩

/-- C2: when a version's migration script throws during `up`, the run
aborts at that version: the Applied-Set is unchanged (so the failing
id is never recorded), the run's outcome is failure, no `recorded`
event for that id is emitted, and the versions after it are never
attempted (the run's result does not depend on them). -/
theorem runMigrations_up_failure_aborts (q : Query) (a : List String) (w : World)
    (v : Version) (rest : List Version) (m : Migration)
    (hidx : v.hasIndex = true) (hload : v.load = .loaded (some m))
    (hid : m.id ≠ "") (happ : m.id ∉ a) (hpush : v.pushFails = false)
    (hup : m.hasUp = true) (hfail : m.upFails = true) :
    (runVersions q a w (v :: rest)).1.applied = w.applied
    ∧ (runVersions q a w (v :: rest)).2.2 = false
    ∧ (∀ lbl, Event.recorded m.id lbl ∉ (runVersions q a w (v :: rest)).2.1)
    ∧ runVersions q a w (v :: rest) = runVersions q a w [v] := by
  have hpv : (processVersion q a w v).2.2 = false ∧
      (processVersion q a w v).1.applied = w.applied ∧
      ∀ lbl, Event.recorded m.id lbl ∉ (processVersion q a w v).2.1 := by
    cases hs : v.snapshot with
    | none =>
      refine ⟨?_, ?_, ?_⟩ <;>
        simp [processVersion, execAndRecord, hidx, hload, hid, happ, hpush, hup,
          hfail, hs]
    | some sf =>
      refine ⟨?_, ?_, ?_⟩
      · simp [processVersion, execAndRecord, hidx, hload, hid, happ, hpush, hup,
          hfail, hs]
      · simp [processVersion, execAndRecord, hidx, hload, hid, happ, hpush, hup,
          hfail, hs, pushSnapshotW]
      · intro lbl hmem
        simp only [processVersion, execAndRecord, hidx, hload, hid, happ, hpush, hup,
          hfail, hs, if_true, if_false, if_neg, Bool.false_eq_true, ite_false,
          ite_true] at hmem
        rcases List.mem_cons.mp hmem with h | h
        · exact Event.noConfusion h
        · rcases List.mem_append.mp h with h | h
          · have := waitForAttributes_pollish q sf _ h
            simp [isPollEvent] at this
          · simp at h
  have hfalse : (processVersion q a w v).2.2 ≠ true := by simp [hpv.1]
  refine ⟨?_, ?_, ?_, ?_⟩
  · simp only [runVersions, if_neg hfalse]
    exact hpv.2.1
  · simp [runVersions, if_neg hfalse]
  · intro lbl
    simp only [runVersions, if_neg hfalse]
    exact hpv.2.2 lbl
  · simp [runVersions, if_neg hfalse]

/-- Closed-input evaluation of `runMigrations_up_failure_aborts`: a
version whose `up` throws, followed by a healthy version that is never
reached. -/
theorem runMigrations_up_failure_aborts_witness :
    (sampleVFail.hasIndex = true
      ∧ sampleVFail.load = .loaded (some sampleMigFail)
      ∧ sampleMigFail.id ≠ "" ∧ sampleMigFail.id ∉ ([] : List String)
      ∧ sampleVFail.pushFails = false
      ∧ sampleMigFail.hasUp = true ∧ sampleMigFail.upFails = true)
    ∧ (runVersions sampleQuery [] emptyWorld [sampleVFail, sampleV2]).1.applied = []
    ∧ (runVersions sampleQuery [] emptyWorld [sampleVFail, sampleV2]).2.2 = false
    ∧ Event.recorded "F" "v1" ∉
        (runVersions sampleQuery [] emptyWorld [sampleVFail, sampleV2]).2.1 := by
  have h := runMigrations_up_failure_aborts sampleQuery [] emptyWorld sampleVFail
    [sampleV2] sampleMigFail (by decide) (by decide) (by decide) (by decide)
    (by decide) (by decide) (by decide)
  exact ⟨⟨by decide, by decide, by decide, by decide, by decide, by decide, by decide⟩,
    h.1, h.2.1, h.2.2.1 "v1"⟩

/-- C3: running `run` a second time from the world a successful run
produced, with the same version set, succeeds, changes nothing, and
performs zero schema pushes and zero `up` executions: every recorded
id is found in the Applied-Set and skipped. -/
theorem runMigrations_idempotent (env : Env) (w0 w1 : World) (t1 : List Event)
    (h : runMigrations env w0 = (w1, t1, true)) :
    (runMigrations env w1).1 = w1 ∧ (runMigrations env w1).2.2 = true
    ∧ (∀ n, Event.pushed n ∉ (runMigrations env w1).2.1)
    ∧ (∀ i, Event.executedUp i ∉ (runMigrations env w1).2.1) := by
  have hrun : runVersions env.query (w0.applied.map (fun r => r.id)) w0
      (sortVersions env.versions) = (w1, t1, true) := h
  have hok : (runVersions env.query (w0.applied.map (fun r => r.id)) w0
      (sortVersions env.versions)).2.2 = true := by rw [hrun]
  have hcov := runVersions_success_covers env.query (w0.applied.map (fun r => r.id))
    (sortVersions env.versions) w0 (fun x hx => hx) hok
  have hcov1 : ∀ v ∈ sortVersions env.versions, v.hasIndex = false ∨
      ∃ m, v.load = .loaded (some m) ∧ m.id ≠ "" ∧
        m.id ∈ (w1.applied.map (fun r => r.id)) := by
    intro v hv
    rcases hcov v hv with hni | ⟨m, hm, hid, hmem⟩
    · exact Or.inl hni
    · refine Or.inr ⟨m, hm, hid, ?_⟩
      rw [hrun] at hmem
      exact hmem
  have hall := runVersions_all_applied env.query (w1.applied.map (fun r => r.id))
    (sortVersions env.versions) w1 hcov1
  refine ⟨hall.1, hall.2.1, ?_, ?_⟩
  · intro n hmem
    have := hall.2.2 _ hmem
    simp [isSkipEvent] at this
  · intro i hmem
    have := hall.2.2 _ hmem
    simp [isSkipEvent] at this

/-- Closed-input evaluation of `runMigrations_idempotent`: after a
first run applies "A" and "B", the second run changes nothing and
pushes and executes nothing. -/
theorem runMigrations_idempotent_witness :
    runMigrations sampleEnv1 emptyWorld =
      (⟨[⟨"A", "v1"⟩, ⟨"B", "v2"⟩], []⟩,
       [Event.warnNoSnapshot "v1", Event.executedUp "A", Event.recorded "A" "v1",
        Event.warnNoSnapshot "v2", Event.executedUp "B", Event.recorded "B" "v2"],
       true)
    ∧ (runMigrations sampleEnv1 ⟨[⟨"A", "v1"⟩, ⟨"B", "v2"⟩], []⟩).1 =
        ⟨[⟨"A", "v1"⟩, ⟨"B", "v2"⟩], []⟩
    ∧ (runMigrations sampleEnv1 ⟨[⟨"A", "v1"⟩, ⟨"B", "v2"⟩], []⟩).2.2 = true
    ∧ Event.pushed "v1" ∉ (runMigrations sampleEnv1 ⟨[⟨"A", "v1"⟩, ⟨"B", "v2"⟩], []⟩).2.1
    ∧ Event.executedUp "A" ∉
        (runMigrations sampleEnv1 ⟨[⟨"A", "v1"⟩, ⟨"B", "v2"⟩], []⟩).2.1 := by
  have h := runMigrations_idempotent sampleEnv1 emptyWorld
    ⟨[⟨"A", "v1"⟩, ⟨"B", "v2"⟩], []⟩
    [Event.warnNoSnapshot "v1", Event.executedUp "A", Event.recorded "A" "v1",
     Event.warnNoSnapshot "v2", Event.executedUp "B", Event.recorded "B" "v2"]
    (by decide)
  exact ⟨by decide, h.1, h.2.1, h.2.2.1 "v1", h.2.2.2 "A"⟩

/-- C4: for every (database, table) pair the readiness loop makes at
most 60 query attempts; under a query that reports a non-available
attribute on every attempt it stops after exactly 60 attempts with the
timed-out (abandon-with-warning) outcome; and for any query whatsoever
the run still reaches the execution step of the version and
continues. -/
theorem waitForAttributes_bounded_attempts (q0 qp : Nat → QueryOutcome) (q : Query)
    (a : List String) (w : World) (v : Version) (m : Migration)
    (sf : Option Snapshot)
    (hqp : ∀ n, reportsPending (qp n) = true)
    (hidx : v.hasIndex = true) (hload : v.load = .loaded (some m))
    (hid : m.id ≠ "") (happ : m.id ∉ a)
    (hsnap : v.snapshot = some sf) (hpush : v.pushFails = false)
    (hup : m.hasUp = true) (hupok : m.upFails = false) :
    (pollPair q0).2 ≤ MAX_ATTEMPTS
    ∧ pollPair qp = (.timedOut, MAX_ATTEMPTS)
    ∧ Event.executedUp m.id ∈ (processVersion q a w v).2.1
    ∧ (processVersion q a w v).2.2 = true := by
  refine ⟨?_, ?_, ?_, ?_⟩
  · simpa using pollFrom_attempts_le q0 MAX_ATTEMPTS 0
  · simpa using pollFrom_pending qp hqp MAX_ATTEMPTS 0
  · simp [processVersion, execAndRecord, hidx, hload, hid, happ, hsnap, hpush,
      hup, hupok]
  · simp [processVersion, execAndRecord, hidx, hload, hid, happ, hsnap, hpush,
      hup, hupok]

/-- Closed-input evaluation of `waitForAttributes_bounded_attempts`: an
always-pending query against a version with one snapshot table. -/
theorem waitForAttributes_bounded_attempts_witness :
    ((∀ n, reportsPending (samplePendingQuery n) = true)
      ∧ sampleVWithSnap.hasIndex = true
      ∧ sampleVWithSnap.load = .loaded (some sampleMigA)
      ∧ sampleMigA.id ≠ "" ∧ sampleMigA.id ∉ ([] : List String)
      ∧ sampleVWithSnap.snapshot = some (some sampleSnapshot)
      ∧ sampleVWithSnap.pushFails = false
      ∧ sampleMigA.hasUp = true ∧ sampleMigA.upFails = false)
    ∧ pollPair samplePendingQuery = (.timedOut, MAX_ATTEMPTS)
    ∧ Event.executedUp "A" ∈
        (processVersion samplePendingQ [] emptyWorld sampleVWithSnap).2.1
    ∧ (processVersion samplePendingQ [] emptyWorld sampleVWithSnap).2.2 = true := by
  have h := waitForAttributes_bounded_attempts samplePendingQuery samplePendingQuery
    samplePendingQ [] emptyWorld sampleVWithSnap sampleMigA (some sampleSnapshot)
    (fun n => rfl) (by decide) (by decide) (by decide) (by decide) (by decide)
    (by decide) (by decide) (by decide)
  exact ⟨⟨fun n => rfl, by decide, by decide, by decide, by decide, by decide,
    by decide, by decide, by decide⟩, h.2.1, h.2.2.1, h.2.2.2⟩

/-- C5 counterexample: the claim asserts that a discovered version with
no loadable script aborts the run as a malformed-version error.  On
this input (a "v1" with no index file followed by a healthy "v2") the
run instead warns, skips "v1", continues to "v2", applies it, and the
whole run succeeds. -/
theorem runMigrations_missing_index_counterexample :
    runMigrations sampleEnvNoIndex emptyWorld =
      (⟨[⟨"B", "v2"⟩], []⟩,
       [Event.warnNoIndex "v1", Event.warnNoSnapshot "v2", Event.executedUp "B",
        Event.recorded "B" "v2"],
       true) := by decide

/-- C5 (amended): a discovered version directory with no loadable
script (no index.ts or index.js) is skipped with a warning and the run
continues with the later versions, rather than aborting. -/
theorem runMigrations_missing_index_skips (q : Query) (a : List String) (w : World)
    (v : Version) (rest : List Version) (hni : v.hasIndex = false) :
    processVersion q a w v = (w, [Event.warnNoIndex v.name], true)
    ∧ runVersions q a w (v :: rest) =
        ((runVersions q a w rest).1,
         Event.warnNoIndex v.name :: (runVersions q a w rest).2.1,
         (runVersions q a w rest).2.2) := by
  have hni' : ¬ v.hasIndex = true := by simp [hni]
  constructor
  · simp [processVersion, hni']
  · simp [runVersions, processVersion, hni']

/-- Closed-input evaluation of `runMigrations_missing_index_skips`. -/
theorem runMigrations_missing_index_skips_witness :
    sampleVNoIndex.hasIndex = false
    ∧ processVersion sampleQuery [] emptyWorld sampleVNoIndex =
        (emptyWorld, [Event.warnNoIndex "v1"], true) := by
  have h := runMigrations_missing_index_skips sampleQuery [] emptyWorld
    sampleVNoIndex [] (by decide)
  exact ⟨by decide, h.1⟩

/-- C6: a fatal (code 500) outcome of the attribute-status query at
attempt `k` makes the loop stop polling that pair right there with the
abandoned (warn-and-move-on) outcome; every pair that has a databaseId
still gets its polling entry in the trace; and the polling outcomes
never influence the world or the run's continuation, so such a failure
can never abort the run. -/
theorem polling_server_error_abandons (q1 : Nat → QueryOutcome) (k : Nat)
    (q q' : Query) (a : List String) (w : World) (v : Version)
    (snap : Snapshot) (t : Table) (db : String)
    (hk : k < MAX_ATTEMPTS)
    (hbefore : ∀ j, j < k → pollStepContinues (q1 j) = true)
    (h500 : q1 k = .err 500)
    (ht : t ∈ snap.tables) (hdb : t.databaseId = some db) :
    pollPair q1 = (.abandoned, k + 1)
    ∧ Event.polledPair db t.tid (pollPair (q db t.tid)).1 (pollPair (q db t.tid)).2 ∈
        waitForAttributes q (some snap)
    ∧ (processVersion q a w v).1 = (processVersion q' a w v).1
    ∧ (processVersion q a w v).2.2 = (processVersion q' a w v).2.2 := by
  refine ⟨?_, ?_, ?_, ?_⟩
  · have h := pollFrom_abandons q1 k MAX_ATTEMPTS 0 hk
      (fun j hj => by simpa using hbefore j hj) (by simpa using h500)
    rw [show (0 : Nat) + k + 1 = k + 1 from by omega] at h
    exact h
  · have : tableEvents q t =
        Event.polledPair db t.tid (pollPair (q db t.tid)).1 (pollPair (q db t.tid)).2 := by
      simp [tableEvents, hdb]
    rw [← this]
    exact List.mem_map_of_mem (tableEvents q) ht
  · exact (processVersion_query_irrelevant q q' a w v).1
  · exact (processVersion_query_irrelevant q q' a w v).2

/-- Closed-input evaluation of `polling_server_error_abandons`: a 500
error on the first attempt. -/
theorem polling_server_error_abandons_witness :
    ((0 : Nat) < MAX_ATTEMPTS
      ∧ sample500Query 0 = .err 500
      ∧ (⟨"users", "T", some "db"⟩ : Table) ∈ sampleSnapshot.tables)
    ∧ pollPair sample500Query = (.abandoned, 1)
    ∧ (processVersion samplePendingQ [] emptyWorld sampleVWithSnap).1 =
        (processVersion sampleQuery [] emptyWorld sampleVWithSnap).1
    ∧ (processVersion samplePendingQ [] emptyWorld sampleVWithSnap).2.2 =
        (processVersion sampleQuery [] emptyWorld sampleVWithSnap).2.2 := by
  have h := polling_server_error_abandons sample500Query 0 samplePendingQ sampleQuery
    [] emptyWorld sampleVWithSnap sampleSnapshot ⟨"users", "T", some "db"⟩ "db"
    (by decide) (fun j hj => absurd hj (Nat.not_lt_zero j)) rfl (by decide) rfl
  exact ⟨⟨by decide, rfl, by decide⟩, h.1, h.2.2.1, h.2.2.2⟩

/-- C7: a version with no schema snapshot file does not fail the run:
the schema push is skipped with a warning, no polling happens, and the
run proceeds directly to executing the version's `up` script and
recording it. -/
theorem runMigrations_no_snapshot_skips_sync (q : Query) (a : List String)
    (w : World) (v : Version) (m : Migration)
    (hidx : v.hasIndex = true) (hload : v.load = .loaded (some m))
    (hid : m.id ≠ "") (happ : m.id ∉ a) (hsnap : v.snapshot = none)
    (hup : m.hasUp = true) (hupok : m.upFails = false) :
    processVersion q a w v =
      (recordMigration w m.id v.name,
       [Event.warnNoSnapshot v.name, Event.executedUp m.id,
        Event.recorded m.id v.name],
       true) := by
  simp [processVersion, execAndRecord, hidx, hload, hid, happ, hsnap, hup, hupok]

/-- Closed-input evaluation of `runMigrations_no_snapshot_skips_sync`. -/
theorem runMigrations_no_snapshot_skips_sync_witness :
    (sampleV1.hasIndex = true ∧ sampleV1.load = .loaded (some sampleMigA)
      ∧ sampleMigA.id ≠ "" ∧ sampleMigA.id ∉ ([] : List String)
      ∧ sampleV1.snapshot = none
      ∧ sampleMigA.hasUp = true ∧ sampleMigA.upFails = false)
    ∧ processVersion sampleQuery [] emptyWorld sampleV1 =
        (recordMigration emptyWorld "A" "v1",
         [Event.warnNoSnapshot "v1", Event.executedUp "A", Event.recorded "A" "v1"],
         true) := by
  have h := runMigrations_no_snapshot_skips_sync sampleQuery [] emptyWorld sampleV1
    sampleMigA (by decide) (by decide) (by decide) (by decide) (by decide)
    (by decide) (by decide)
  exact ⟨⟨by decide, by decide, by decide, by decide, by decide, by decide,
    by decide⟩, h⟩

/-- C8: the `migrations status` action never mutates the Applied-Set
or the schema state: it returns the world it was given, unchanged. -/
theorem statusRun_readonly (w : World) (dirs : List StatusVersion) :
    (statusRun w dirs).1 = w
    ∧ (statusRun w dirs).1.applied = w.applied
    ∧ (statusRun w dirs).1.pushedSnapshots = w.pushedSnapshots :=
  ⟨rfl, rfl, rfl⟩

/-- C9: the well-formedness check rejects exactly a missing default
export and a missing/empty id; a migration whose `up` is absent passes
the check, executes nothing, and is still recorded as applied. -/
theorem run_absent_up_passes_and_records (q : Query) (a : List String) (w : World)
    (v : Version) (m : Migration)
    (hidx : v.hasIndex = true) (hload : v.load = .loaded (some m))
    (hid : m.id ≠ "") (happ : m.id ∉ a) (hpush : v.pushFails = false)
    (hnoup : m.hasUp = false) :
    (processVersion q a w v).2.2 = true
    ∧ (processVersion q a w v).1.applied = w.applied ++ [⟨m.id, v.name⟩]
    ∧ Event.recorded m.id v.name ∈ (processVersion q a w v).2.1
    ∧ (∀ i, Event.executedUp i ∉ (processVersion q a w v).2.1)
    ∧ (∀ v' : Version, v'.hasIndex = true → v'.load = .loaded none →
        processVersion q a w v' = (w, [Event.abortInvalid v'.name], false))
    ∧ (∀ (v' : Version) (m' : Migration), v'.hasIndex = true →
        v'.load = .loaded (some m') → m'.id = "" →
        processVersion q a w v' = (w, [Event.abortInvalid v'.name], false)) := by
  refine ⟨?_, ?_, ?_, ?_, ?_, ?_⟩
  · cases hs : v.snapshot with
    | none => simp [processVersion, execAndRecord, hidx, hload, hid, happ, hs, hnoup]
    | some sf =>
      simp [processVersion, execAndRecord, hidx, hload, hid, happ, hpush, hs, hnoup]
  · cases hs : v.snapshot with
    | none =>
      simp [processVersion, execAndRecord, recordMigration, hidx, hload, hid, happ,
        hs, hnoup]
    | some sf =>
      simp [processVersion, execAndRecord, recordMigration, pushSnapshotW, hidx,
        hload, hid, happ, hpush, hs, hnoup]
  · cases hs : v.snapshot with
    | none => simp [processVersion, execAndRecord, hidx, hload, hid, happ, hs, hnoup]
    | some sf =>
      simp [processVersion, execAndRecord, hidx, hload, hid, happ, hpush, hs, hnoup]
  · intro i hmem
    cases hs : v.snapshot with
    | none =>
      simp [processVersion, execAndRecord, hidx, hload, hid, happ, hs, hnoup] at hmem
    | some sf =>
      simp only [processVersion, execAndRecord, hidx, hload, hid, happ, hpush, hs,
        hnoup, if_true, Bool.false_eq_true, if_false, ite_true, ite_false] at hmem
      rcases List.mem_cons.mp hmem with h | h
      · exact Event.noConfusion h
      · rcases List.mem_append.mp h with h | h
        · have := waitForAttributes_pollish q sf _ h
          simp [isPollEvent] at this
        · simp at h
  · intro v' hix hld
    simp [processVersion, hix, hld]
  · intro v' m' hix hld hide
    simp [processVersion, hix, hld, hide]

/-- Closed-input evaluation of `run_absent_up_passes_and_records`: a
migration with id "N" and no `up`. -/
theorem run_absent_up_passes_and_records_witness :
    (sampleVNoUp.hasIndex = true
      ∧ sampleVNoUp.load = .loaded (some sampleMigNoUp)
      ∧ sampleMigNoUp.id ≠ "" ∧ sampleMigNoUp.id ∉ ([] : List String)
      ∧ sampleVNoUp.pushFails = false ∧ sampleMigNoUp.hasUp = false)
    ∧ (processVersion sampleQuery [] emptyWorld sampleVNoUp).2.2 = true
    ∧ (processVersion sampleQuery [] emptyWorld sampleVNoUp).1.applied =
        [⟨"N", "v1"⟩]
    ∧ Event.recorded "N" "v1" ∈
        (processVersion sampleQuery [] emptyWorld sampleVNoUp).2.1
    ∧ Event.executedUp "N" ∉
        (processVersion sampleQuery [] emptyWorld sampleVNoUp).2.1 := by
  have h := run_absent_up_passes_and_records sampleQuery [] emptyWorld sampleVNoUp
    sampleMigNoUp (by decide) (by decide) (by decide) (by decide) (by decide)
    (by decide)
  exact ⟨⟨by decide, by decide, by decide, by decide, by decide, by decide⟩,
    h.1, h.2.1, h.2.2.1, h.2.2.2.1 "N"⟩

/-- C10 counterexample: the claim asserts that whenever a version's id
is not stated literally in its index.ts, `status` shows PENDING even
when the migration is in the Applied-Set.  For a version with no
index.ts whose true id "A" is applied, if the literal string "unknown"
is itself among the applied ids, `status` derives the id "unknown" and
shows APPLIED, not PENDING. -/
theorem status_unknown_id_counterexample :
    extractedId sampleStatusNoTs = none
    ∧ deriveId sampleStatusNoTs = "unknown"
    ∧ "A" ∈ ["A", "unknown"]
    ∧ (statusOf ["A", "unknown"] sampleStatusNoTs).2.2 = true := by decide

/-- C10 (amended): `status` derives a version's id by regex-matching
the literal `id: "..."` text of its index.ts (never by loading the
module); when the extraction fails (no index.ts, or no such literal),
the reported id is "unknown", and — provided the literal string
"unknown" is not itself among the applied ids — the version is shown
PENDING even when its true migration id is in the Applied-Set, so
`status` can disagree with `run`. -/
theorem status_unknown_id_pending (v : StatusVersion) (applied : List String)
    (trueId : String)
    (hext : extractedId v = none)
    (hid : trueId ∈ applied) (hunk : "unknown" ∉ applied) :
    deriveId v = "unknown"
    ∧ statusOf applied v = (v.name, "unknown", false) := by
  have h1 : deriveId v = "unknown" := by simp [deriveId, hext]
  refine ⟨h1, ?_⟩
  simp [statusOf, h1, hunk]

/-- Closed-input evaluation of `status_unknown_id_pending`: no
index.ts, true id "A" applied. -/
theorem status_unknown_id_pending_witness :
    (extractedId sampleStatusNoTs = none
      ∧ "A" ∈ ["A"] ∧ "unknown" ∉ ["A"])
    ∧ deriveId sampleStatusNoTs = "unknown"
    ∧ statusOf ["A"] sampleStatusNoTs = ("v1", "unknown", false) := by
  have h := status_unknown_id_pending sampleStatusNoTs ["A"] "A" (by decide)
    (by decide) (by decide)
  exact ⟨⟨by decide, by decide, by decide⟩, h.1, h.2⟩

end AppwriteCtl
